import Mathlib

set_option maxRecDepth 4000

/-!
Verification of the kabanero-events core: the identifier canonicalizer
(ToDomainName / ToLabelName), the credential resolver (GetURLAPIToken),
the NATS message provider (Subscribe / Receive / ListenAndServe) and the
webhook listener handler.  Go strings are modelled as byte lists
(List Nat) in the canonicalizer, which works byte-wise over []byte, and
as character lists (List Char) elsewhere.
-/

/- §1  Identifier canonicalizer (ToDomainName / ToLabelName). -/

/-- Byte-wise model of strings.ToLower as used on the ASCII bytes the
canonicalizer cares about: bytes 65..90 are shifted to 97..122, all other
bytes are unchanged. -/
def toLowerByte (b : Nat) : Nat :=
  if 65 ≤ b ∧ b ≤ 90 then b + 32 else b

/-- Model of isValidDomainNameChar: true for a byte that is valid inside a
domain name, i.e. one of 46, 45, 97..122, 48..57. -/
def isValidDomainNameChar (ch : Nat) : Bool :=
  decide (ch = 46 ∨ ch = 45 ∨ (97 ≤ ch ∧ ch ≤ 122) ∨ (48 ≤ ch ∧ ch ≤ 57))

/-- Model of isValidLabelChar: additionally allows 95 and 65..90. -/
def isValidLabelChar (ch : Nat) : Bool :=
  decide (ch = 46 ∨ ch = 45 ∨ ch = 95 ∨ (97 ≤ ch ∧ ch ≤ 122) ∨
    (65 ≤ ch ∧ ch ≤ 90) ∨ (48 ≤ ch ∧ ch ≤ 57))

/-- Alphanumeric test used by ToDomainName on the first and last byte. -/
def domainAlnum (ch : Nat) : Bool :=
  decide ((97 ≤ ch ∧ ch ≤ 122) ∨ (48 ≤ ch ∧ ch ≤ 57))

/-- Alphanumeric test used by ToLabelName on the first and last byte. -/
def labelAlnum (ch : Nat) : Bool :=
  decide ((97 ≤ ch ∧ ch ≤ 122) ∨ (65 ≤ ch ∧ ch ≤ 90) ∨ (48 ≤ ch ∧ ch ≤ 57))

/-- First loop of ToDomainName: the first byte must be alphanumeric (else a
48 is prepended and the byte is kept only if valid, otherwise replaced by
46); every later byte is kept if valid, otherwise replaced by 46. -/
def domainPass (chars : List Nat) : List Nat :=
  match chars with
  | [] => []
  | c :: rest =>
    (if domainAlnum c = true then [c]
     else if isValidDomainNameChar c = true then [48, c]
     else [48, 46]) ++
    rest.map (fun ch => if isValidDomainNameChar ch = true then ch else 46)

/-- First loop of ToLabelName, same shape with the label alphabet. -/
def labelPass (chars : List Nat) : List Nat :=
  match chars with
  | [] => []
  | c :: rest =>
    (if labelAlnum c = true then [c]
     else if isValidLabelChar c = true then [48, c]
     else [48, 46]) ++
    rest.map (fun ch => if isValidLabelChar ch = true then ch else 46)

/-- Model of strings.ReplaceAll(s, "..", "."): replaces non-overlapping
occurrences of two consecutive 46 bytes left-to-right by a single 46. -/
def replaceDotDot : List Nat → List Nat
  | [] => []
  | [a] => [a]
  | a :: b :: rest =>
    if a = 46 ∧ b = 46 then 46 :: replaceDotDot rest
    else a :: replaceDotDot (b :: rest)

/-- Model of strings.Index(s, ".."): index of the first occurrence of two
consecutive 46 bytes, or none. -/
def indexDotDot : List Nat → Option Nat
  | [] => none
  | [_] => none
  | a :: b :: rest =>
    if a = 46 ∧ b = 46 then some 0
    else (indexDotDot (b :: rest)).map (· + 1)

/-- True when the list contains two consecutive 46 bytes. -/
def hasDotDot : List Nat → Bool
  | [] => false
  | [_] => false
  | a :: b :: rest => decide (a = 46 ∧ b = 46) || hasDotDot (b :: rest)

/-- Fuelled model of the loop `for strings.Index(retStr, "..") > 0`.  Each
iteration strictly shortens the list, so fuel = initial length suffices. -/
def collapseDotsFuel : Nat → List Nat → List Nat
  | 0, l => l
  | fuel + 1, l =>
    if (indexDotDot l).getD 0 > 0 then collapseDotsFuel fuel (replaceDotDot l)
    else l

/-- The `..` collapsing loop of ToDomainName. -/
def collapseDots (l : List Nat) : List Nat :=
  collapseDotsFuel l.length l

/-- Final-character fixup shared by both canonicalizers: if the last byte is
alphanumeric, return as is; if there is length budget, append 48; otherwise
drop the last two bytes and append 48.  strLen always equals the length of
retStr at this point in the Go code. -/
def lastCharFix (maxLength : Nat) (alnum : Nat → Bool) (retStr : List Nat) : List Nat :=
  let strLen := retStr.length
  let ch := retStr.getD (strLen - 1) 0
  if alnum ch = true then retStr
  else if strLen < maxLength - 1 then retStr ++ [48]
  else retStr.take (strLen - 2) ++ [48]

/-- Model of ToDomainName over the bytes of the input string. -/
def ToDomainName (name : List Nat) : List Nat :=
  let retStr := collapseDots (domainPass (name.map toLowerByte))
  if retStr.length = 0 then retStr
  else if retStr.length > 253 then lastCharFix 253 domainAlnum (retStr.take 253)
  else lastCharFix 253 domainAlnum retStr

/-- Model of ToLabelName over the bytes of the input string. -/
def ToLabelName (name : List Nat) : List Nat :=
  let retStr := labelPass name
  if retStr.length = 0 then retStr
  else if retStr.length > 63 then lastCharFix 63 labelAlnum (retStr.take 63)
  else lastCharFix 63 labelAlnum retStr

/-- Go slice expression l[0:n] with its runtime bound check made explicit:
none models a panic (n negative or past the end). -/
def goSliceTo (l : List Nat) (n : Int) : Option (List Nat) :=
  if 0 ≤ n ∧ n ≤ (l.length : Int) then some (l.take n.toNat) else none

/-- Go index expression l[n] with its runtime bound check made explicit. -/
def goIndex (l : List Nat) (n : Int) : Option Nat :=
  if 0 ≤ n ∧ n < (l.length : Int) then some (l.getD n.toNat 0) else none

/-- Final-character fixup with Go's runtime checks kept: the index
retStr[strLen-1] and the slice retStr[0:strLen-2] go through the checked
operations, and strLen-2 is computed in Int as Go would compute it. -/
def lastCharFixChecked (maxLength : Nat) (alnum : Nat → Bool) (retStr : List Nat) :
    Option (List Nat) :=
  let strLen : Int := retStr.length
  match goIndex retStr (strLen - 1) with
  | none => none
  | some ch =>
    if alnum ch = true then some retStr
    else if strLen < (maxLength : Int) - 1 then some (retStr ++ [48])
    else
      match goSliceTo retStr (strLen - 2) with
      | none => none
      | some pre => some (pre ++ [48])

/-- ToDomainName with Go's runtime bound checks made explicit. -/
def ToDomainNameChecked (name : List Nat) : Option (List Nat) :=
  let retStr := collapseDots (domainPass (name.map toLowerByte))
  if retStr.length = 0 then some retStr
  else if retStr.length > 253 then lastCharFixChecked 253 domainAlnum (retStr.take 253)
  else lastCharFixChecked 253 domainAlnum retStr

/-- ToLabelName with Go's runtime bound checks made explicit. -/
def ToLabelNameChecked (name : List Nat) : Option (List Nat) :=
  let retStr := labelPass name
  if retStr.length = 0 then some retStr
  else if retStr.length > 63 then lastCharFixChecked 63 labelAlnum (retStr.take 63)
  else lastCharFixChecked 63 labelAlnum retStr


/- §2  Credential resolver (GetURLAPIToken / matchPrefix). -/

/-- Characters of a Go string literal. -/
def goStr (s : String) : List Char := s.data

/-- Dynamic JSON-like value, the model of interface\x7b\x7d values inside an
unstructured Kubernetes object.  Maps are association lists in enumeration
order. -/
inductive JValue : Type where
  | str (s : List Char)
  | obj (fields : List (List Char × JValue))
  | arr (elems : List JValue)
  | boolVal (b : Bool)
  | other

/-- Go map lookup objMap[key] on the association-list model. -/
def jLookup (m : List (List Char × JValue)) (key : List Char) : Option JValue :=
  match m with
  | [] => none
  | kv :: rest => if kv.1 = key then some kv.2 else jLookup rest key

/-- Combined map lookup and type assertion .(map[string]interface\x7b\x7d):
none when the key is absent or the value is not a map. -/
def asObj (v : Option JValue) : Option (List (List Char × JValue)) :=
  match v with
  | some (.obj m) => some m
  | _ => none

/-- Combined map lookup and type assertion .(string). -/
def asStr (v : Option JValue) : Option (List Char) :=
  match v with
  | some (.str s) => some s
  | _ => none

/-- Annotation-scan loop of GetURLAPIToken, restricted to one key prefix:
collects, in enumeration order, the string values of the annotation keys
that start with the given prefix (non-string values are dropped). -/
def annotURLs (fields : List (List Char × JValue)) (pre : List Char) : List (List Char) :=
  match fields with
  | [] => []
  | kv :: rest =>
    if pre.isPrefixOf kv.1 then
      match kv.2 with
      | .str url => url :: annotURLs rest pre
      | _ => annotURLs rest pre
    else annotURLs rest pre

/-- Model of matchPrefix: (true, first element of arrStr that is a prefix of
str), or (false, "") when no element is a prefix. -/
def matchPrefixFn (str : List Char) (arrStr : List (List Char)) : Bool × List Char :=
  match arrStr with
  | [] => (false, [])
  | val :: rest => if val.isPrefixOf str then (true, val) else matchPrefixFn str rest

/-- The two matchPrefix calls of GetURLAPIToken: the kabanero.io/git- family
is tested first, the tekton.dev/git- family only when the first family
found no prefix of the URL. -/
def selectMatch (repoURL : List Char) (kabaneroList tektonList : List (List Char)) :
    Bool × List Char :=
  let m1 := matchPrefixFn repoURL kabaneroList
  if m1.1 then m1 else matchPrefixFn repoURL tektonList

/-- Value of one base64 alphabet character (A-Z a-z 0-9 + /). -/
def b64Val (c : Char) : Option Nat :=
  if 65 ≤ c.toNat ∧ c.toNat ≤ 90 then some (c.toNat - 65)
  else if 97 ≤ c.toNat ∧ c.toNat ≤ 122 then some (c.toNat - 71)
  else if 48 ≤ c.toNat ∧ c.toNat ≤ 57 then some (c.toNat + 4)
  else if c.toNat = 43 then some 62
  else if c.toNat = 47 then some 63
  else none

/-- Quad-wise standard base64 decoding with mandatory padding, the model of
base64.StdEncoding.DecodeString after newline filtering: none models a
CorruptInputError. -/
def base64Quads : List Char → Option (List Nat)
  | [] => some []
  | c0 :: c1 :: c2 :: c3 :: rest =>
    (match b64Val c0, b64Val c1 with
     | some v0, some v1 =>
       if c2.toNat = 61 then
         (if c3.toNat = 61 ∧ rest = [] then some [v0 * 4 + v1 / 16] else none)
       else
         (match b64Val c2 with
          | some v2 =>
            if c3.toNat = 61 then
              (if rest = [] then some [v0 * 4 + v1 / 16, v1 % 16 * 16 + v2 / 4] else none)
            else
              (match b64Val c3 with
               | some v3 =>
                 (match base64Quads rest with
                  | some tl =>
                    some ((v0 * 4 + v1 / 16) :: (v1 % 16 * 16 + v2 / 4) :: (v2 % 4 * 64 + v3) :: tl)
                  | none => none)
               | none => none)
          | none => none)
     | _, _ => none)
  | _ => none

/-- Model of base64.StdEncoding.DecodeString: carriage returns and newlines
are ignored, the rest is decoded in padded quads. -/
def base64Decode (s : List Char) : Option (List Nat) :=
  base64Quads (s.filter (fun c => !(c.toNat == 13 || c.toNat == 10)))

/-- Outcome of the GetURLAPIToken loop body on one secret: skip (continue),
abort (return a base64 decode error), or found (return the credentials). -/
inductive RecordStep : Type where
  | skip
  | abort (badInput : List Char)
  | found (username token : List Nat) (name : List Char)
deriving DecidableEq

/-- Loop body of GetURLAPIToken on one unstructured secret, in source
order: metadata, annotations, the two annotation families, the prefix
match, then name, data, username, password, and the two base64 decodes. -/
def processRecord (repoURL : List Char) (objMap : List (List Char × JValue)) : RecordStep :=
  match asObj (jLookup objMap (goStr "metadata")) with
  | none => .skip
  | some metadata =>
    match asObj (jLookup metadata (goStr "annotations")) with
    | none => .skip
    | some annots =>
      let kabaneroList := annotURLs annots (goStr "kabanero.io/git-")
      let tektonList := annotURLs annots (goStr "tekton.dev/git-")
      let m := selectMatch repoURL kabaneroList tektonList
      if m.1 = false then .skip
      else
        match asStr (jLookup metadata (goStr "name")) with
        | none => .skip
        | some name =>
          match asObj (jLookup objMap (goStr "data")) with
          | none => .skip
          | some dataMap =>
            match asStr (jLookup dataMap (goStr "username")) with
            | none => .skip
            | some username =>
              match asStr (jLookup dataMap (goStr "password")) with
              | none => .skip
              | some token =>
                match base64Decode username with
                | none => .abort username
                | some decodedUserName =>
                  match base64Decode token with
                  | none => .abort token
                  | some decodedToken => .found decodedUserName decodedToken name

/-- Errors of the credential lookup: the backing-store listing error, a
base64 decode error of a matched record, or the final not-found error. -/
inductive LookupErr : Type where
  | backend (msg : List Char)
  | decodeErr (badInput : List Char)
  | notFound (repoURL : List Char)
deriving DecidableEq

/-- Decidable equality for Except results, used by concrete witnesses. -/
instance exceptDecEq {ε α : Type} [DecidableEq ε] [DecidableEq α] :
    DecidableEq (Except ε α) := fun a b =>
  match a, b with
  | .error e, .error f =>
    if h : e = f then .isTrue (by rw [h]) else .isFalse (fun k => h (Except.error.inj k))
  | .error _, .ok _ => .isFalse (fun k => Except.noConfusion k)
  | .ok _, .error _ => .isFalse (fun k => Except.noConfusion k)
  | .ok x, .ok y =>
    if h : x = y then .isTrue (by rw [h]) else .isFalse (fun k => h (Except.ok.inj k))

/-- The record-scanning loop of GetURLAPIToken over the listed secrets. -/
def scanRecords (repoURL : List Char) :
    List (List (List Char × JValue)) → Except LookupErr (List Nat × List Nat × List Char)
  | [] => .error (.notFound repoURL)
  | objMap :: rest =>
    match processRecord repoURL objMap with
    | .skip => scanRecords repoURL rest
    | .abort bad => .error (.decodeErr bad)
    | .found u t n => .ok (u, t, n)

/-- Model of GetURLAPIToken: the listing result of the secret store is an
explicit input; a listing error is returned as is, otherwise the items are
scanned in enumeration order. -/
def GetURLAPIToken (repoURL : List Char)
    (listResult : Except (List Char) (List (List (List Char × JValue)))) :
    Except LookupErr (List Nat × List Nat × List Char) :=
  match listResult with
  | .error e => .error (.backend e)
  | .ok items => scanRecords repoURL items

/-- True when the record reaches and passes the URL prefix match: metadata
and annotations are present as maps and one of the two families contains a
prefix of the repository URL. -/
def recordMatches (repoURL : List Char) (objMap : List (List Char × JValue)) : Bool :=
  match asObj (jLookup objMap (goStr "metadata")) with
  | none => false
  | some metadata =>
    match asObj (jLookup metadata (goStr "annotations")) with
    | none => false
    | some annots =>
      (selectMatch repoURL (annotURLs annots (goStr "kabanero.io/git-"))
        (annotURLs annots (goStr "tekton.dev/git-"))).1

/-- The metadata name of a record, when present as a string. -/
def recordName (objMap : List (List Char × JValue)) : Option (List Char) :=
  match asObj (jLookup objMap (goStr "metadata")) with
  | none => none
  | some metadata => asStr (jLookup metadata (goStr "name"))

/-- The data.username field of a record, when present as a string. -/
def recordUsername (objMap : List (List Char × JValue)) : Option (List Char) :=
  match asObj (jLookup objMap (goStr "data")) with
  | none => none
  | some dataMap => asStr (jLookup dataMap (goStr "username"))

/-- The data.password field of a record, when present as a string. -/
def recordToken (objMap : List (List Char × JValue)) : Option (List Char) :=
  match asObj (jLookup objMap (goStr "data")) with
  | none => none
  | some dataMap => asStr (jLookup dataMap (goStr "password"))


/- §3  NATS message provider (Subscribe / Receive / ListenAndServe). -/

/-- Static configuration of one transport backend. -/
structure ProviderDefinition : Type where
  name : List Char
  url : List Char
  timeout : Nat
deriving DecidableEq

/-- One named transport endpoint bound to a provider. -/
structure EventNode : Type where
  name : List Char
  topic : List Char
  providerRef : List Char
deriving DecidableEq

/-- Model of a nats.Subscription handle: the pending messages, each with
its arrival delay and payload, in delivery order. -/
structure NatsSubscription : Type where
  topic : List Char
  arrivals : List (Nat × List Nat)
deriving DecidableEq

/-- State of a natsProvider: its ProviderDefinition and the subscription
map keyed by event-node name (an association list, newest entry first, as
the model of map assignment). -/
structure NatsProviderState : Type where
  messageProviderDefinition : ProviderDefinition
  subscription : List (List Char × NatsSubscription)
deriving DecidableEq

/-- Errors of the nats client relevant to Receive: ErrBadSubscription (the
nil-subscription check inside NextMsg) and ErrTimeout. -/
inductive NatsErr : Type where
  | badSubscription
  | timeout
deriving DecidableEq

/-- Map lookup provider.subscription[node.Name]; none models the nil zero
value produced when the name was never subscribed. -/
def lookupSub (subs : List (List Char × NatsSubscription)) (name : List Char) :
    Option NatsSubscription :=
  match subs with
  | [] => none
  | kv :: rest => if kv.1 = name then some kv.2 else lookupSub rest name

/-- Model of nats.go (*Subscription).NextMsg(timeout): a nil subscription
fails immediately with ErrBadSubscription; otherwise the next pending
message is returned if it arrives within the timeout, else ErrTimeout. -/
def nextMsg (sub : Option NatsSubscription) (timeout : Nat) : Except NatsErr (List Nat) :=
  match sub with
  | none => .error .badSubscription
  | some s =>
    match s.arrivals with
    | [] => .error .timeout
    | td :: _ => if td.1 ≤ timeout then .ok td.2 else .error .timeout

/-- Model of natsProvider.Receive: the subscription map is consulted (a
missing entry is only logged), then NextMsg runs with the provider's
configured timeout on whatever handle the lookup produced. -/
def natsReceive (provider : NatsProviderState) (node : EventNode) : Except NatsErr (List Nat) :=
  let sub := lookupSub provider.subscription node.name
  nextMsg sub provider.messageProviderDefinition.timeout

/-- Model of natsProvider.Subscribe: on SubscribeSync success the handle is
stored under the node's name, on failure the error is returned and the
state is unchanged. -/
def natsSubscribe (provider : NatsProviderState) (node : EventNode)
    (subscribeSync : Except (List Char) NatsSubscription) :
    Except (List Char) NatsProviderState :=
  match subscribeSync with
  | .error e => .error e
  | .ok sub =>
    .ok { provider with subscription := (node.name, sub) :: provider.subscription }

/-- Observable behaviour of one natsProvider.ListenAndServe activation. -/
structure ListenTrace : Type where
  loggedSetupFailure : Bool
  enteredConsumeLoop : Bool
  handled : List (List Nat)
  returned : Bool
deriving DecidableEq

/-- Model of natsProvider.ListenAndServe, mirroring its control flow: a
ChanSubscribe failure is logged but not returned from, so execution falls
through into the for-range consumption loop either way.  On the failure
path nothing can ever be sent on the locally created channel and it is
never closed, so the loop handles no message and never exits.  On the
success path the loop handles the delivered messages and exits (reaching
the unsubscribe/drain and the return) only if the channel is closed
externally. -/
def natsListenAndServe (chanSubscribe : Except (List Char) Unit)
    (delivered : List (List Nat)) (channelClosed : Bool) : ListenTrace :=
  match chanSubscribe with
  | .error _ =>
    { loggedSetupFailure := true, enteredConsumeLoop := true, handled := [],
      returned := false }
  | .ok _ =>
    { loggedSetupFailure := false, enteredConsumeLoop := true, handled := delivered,
      returned := channelClosed }

/- §4  Webhook listener handler. -/

/-- Outcomes of the external steps taken by listenerHandler, in the order
the handler consults them: the json.Unmarshal of the request body, the
json.Marshal of the envelope, the eventDestination lookup, the
messageProvider lookup, and the provider.Send call. -/
structure ListenerEnv : Type where
  unmarshalBody : Option (List (List Char × JValue))
  marshalOut : Option (List Nat)
  destNode : Option EventNode
  providerFound : Bool
  sendResult : Except (List Char) Unit

/-- Model of listenerHandler: the explicitly written HTTP status (some 202)
or none when the handler returns without writing one (Go then sends an
implicit 200).  Mirrors the source: every failure after reading the body
logs and returns before WriteHeader(StatusAccepted). -/
def listenerHandler (env : ListenerEnv) : Option Nat :=
  match env.unmarshalBody with
  | none => none
  | some _ =>
    match env.marshalOut with
    | none => none
    | some _ =>
      match env.destNode with
      | none => none
      | some _ =>
        if env.providerFound = false then none
        else
          match env.sendResult with
          | .error _ => none
          | .ok _ => some 202

/- §5  Concrete fixtures used by witnesses and counterexamples. -/

/-- Query URL used by the resolver fixtures. -/
def urlQ : List Char := goStr "https://github.com/org/repo"

/-- A secret whose kabanero.io/git- annotation matches urlQ but whose data
map lacks the username entry. -/
def rBad : List (List Char × JValue) :=
  [(goStr "metadata", .obj
      [(goStr "annotations", .obj
          [(goStr "kabanero.io/git-0", .str (goStr "https://github.com/org"))]),
       (goStr "name", .str (goStr "bad-secret"))]),
   (goStr "data", .obj [(goStr "password", .str (goStr "dG9rZW4="))])]

/-- A complete matching secret: username dXNlcg== (user), password
dG9rZW4= (token). -/
def rGood : List (List Char × JValue) :=
  [(goStr "metadata", .obj
      [(goStr "annotations", .obj
          [(goStr "kabanero.io/git-0", .str (goStr "https://github.com/org"))]),
       (goStr "name", .str (goStr "good-secret"))]),
   (goStr "data", .obj
      [(goStr "username", .str (goStr "dXNlcg==")),
       (goStr "password", .str (goStr "dG9rZW4="))])]

/-- A complete matching secret whose username field is not valid base64. -/
def rBadB64 : List (List Char × JValue) :=
  [(goStr "metadata", .obj
      [(goStr "annotations", .obj
          [(goStr "kabanero.io/git-0", .str (goStr "https://github.com/org"))]),
       (goStr "name", .str (goStr "corrupt-secret"))]),
   (goStr "data", .obj
      [(goStr "username", .str (goStr "!!!")),
       (goStr "password", .str (goStr "dG9rZW4="))])]

/-- Event node fixture for the NATS witnesses. -/
def nodeA : EventNode :=
  { name := goStr "github", topic := goStr "event", providerRef := goStr "nats" }

/-- Provider definition fixture with a timeout of 5. -/
def mpdA : ProviderDefinition :=
  { name := goStr "nats", url := goStr "nats://localhost:4222", timeout := 5 }

/-- Provider state with an empty subscription map. -/
def provEmpty : NatsProviderState :=
  { messageProviderDefinition := mpdA, subscription := [] }

/-- Subscription whose first message only arrives at time 10, past the
timeout of 5. -/
def subLate : NatsSubscription := { topic := goStr "event", arrivals := [(10, [1])] }

/-- Provider state where nodeA is subscribed but no message arrives within
the timeout. -/
def provLate : NatsProviderState :=
  { messageProviderDefinition := mpdA, subscription := [(goStr "github", subLate)] }

/-- Listener environment whose body is valid JSON, with every downstream
step succeeding except provider.Send. -/
def envSendFails : ListenerEnv :=
  { unmarshalBody := some [], marshalOut := some [123, 125],
    destNode := some { name := goStr "github", topic := goStr "webhook",
                       providerRef := goStr "nats" },
    providerFound := true,
    sendResult := .error (goStr "nats: connection closed") }

/- §6  Resolver lemmas. -/

/-- A record that does not reach a successful URL prefix match is skipped. -/
theorem processRecord_skip_of_not_matches (repoURL : List Char)
    (r : List (List Char × JValue)) (h : recordMatches repoURL r = false) :
    processRecord repoURL r = .skip := by
  cases hmd : asObj (jLookup r (goStr "metadata")) with
  | none => simp [processRecord, hmd]
  | some metadata =>
    cases han : asObj (jLookup metadata (goStr "annotations")) with
    | none => simp [processRecord, hmd, han]
    | some annots =>
      have h' : (selectMatch repoURL (annotURLs annots (goStr "kabanero.io/git-"))
          (annotURLs annots (goStr "tekton.dev/git-"))).1 = false := by
        simpa [recordMatches, hmd, han] using h
      simp [processRecord, hmd, han, h']

/-- On a record that passes the URL prefix match, the loop body is decided
by the name, username and password fields and the two base64 decodes. -/
theorem processRecord_eq_of_matches (repoURL : List Char)
    (r : List (List Char × JValue)) (hm : recordMatches repoURL r = true) :
    processRecord repoURL r =
      (match recordName r with
       | none => .skip
       | some name =>
         match recordUsername r with
         | none => .skip
         | some username =>
           match recordToken r with
           | none => .skip
           | some token =>
             match base64Decode username with
             | none => .abort username
             | some du =>
               match base64Decode token with
               | none => .abort token
               | some dt => .found du dt name) := by
  cases hmd : asObj (jLookup r (goStr "metadata")) with
  | none => simp [recordMatches, hmd] at hm
  | some metadata =>
    cases han : asObj (jLookup metadata (goStr "annotations")) with
    | none => simp [recordMatches, hmd, han] at hm
    | some annots =>
      have hm' : (selectMatch repoURL (annotURLs annots (goStr "kabanero.io/git-"))
          (annotURLs annots (goStr "tekton.dev/git-"))).1 = true := by
        simpa [recordMatches, hmd, han] using hm
      cases hn : asStr (jLookup metadata (goStr "name")) with
      | none => simp [processRecord, recordName, hmd, han, hm', hn]
      | some name =>
        cases hd : asObj (jLookup r (goStr "data")) with
        | none =>
          simp [processRecord, recordName, recordUsername, recordToken,
            hmd, han, hm', hn, hd]
        | some dataMap =>
          simp [processRecord, recordName, recordUsername, recordToken,
            hmd, han, hm', hn, hd]

/-- Skipped records at the front of the enumeration do not change the scan
result. -/
theorem scanRecords_append_skip (repoURL : List Char)
    (pre rest : List (List (List Char × JValue)))
    (hpre : ∀ x ∈ pre, processRecord repoURL x = .skip) :
    scanRecords repoURL (pre ++ rest) = scanRecords repoURL rest := by
  induction pre with
  | nil => rfl
  | cons x xs ih =>
    have hx := hpre x (List.mem_cons_self x xs)
    have step : scanRecords repoURL ((x :: xs) ++ rest) = scanRecords repoURL (xs ++ rest) := by
      show scanRecords repoURL (x :: (xs ++ rest)) = _
      simp only [scanRecords, hx]
    rw [step]
    exact ih (fun y hy => hpre y (List.mem_cons_of_mem x hy))

/- §7  Claim theorems: resolver. -/

/-- C3 counterexample: with records enumerated as bad-secret then
good-secret, the first record whose URL-pattern set contains a prefix of
the query URL is bad-secret, yet the resolver returns good-secret, because
bad-secret lacks a data.username entry and is skipped. -/
theorem getURLAPIToken_not_first_match :
    recordMatches urlQ rBad = true ∧
    recordName rBad = some (goStr "bad-secret") ∧
    GetURLAPIToken urlQ (.ok [rBad, rGood]) =
      .ok ([117, 115, 101, 114], [116, 111, 107, 101, 110], goStr "good-secret") := by
  decide

/-- C3 (amended): the resolver returns exactly the first record, in
enumeration order, whose loop body neither skips nor aborts — every earlier
record is skipped (because it does not match, or matches but lacks a usable
field) — and within one record the kabanero.io/git- family is consulted
first, the tekton.dev/git- family only when the first family contains no
prefix of the URL. -/
theorem getURLAPIToken_first_usable (repoURL : List Char)
    (pre post : List (List (List Char × JValue))) (r : List (List Char × JValue))
    (u t : List Nat) (n : List Char) (kabs teks : List (List Char))
    (hpre : ∀ x ∈ pre, processRecord repoURL x = .skip)
    (hr : processRecord repoURL r = .found u t n) :
    GetURLAPIToken repoURL (.ok (pre ++ r :: post)) = .ok (u, t, n) ∧
    ((matchPrefixFn repoURL kabs).1 = true →
      selectMatch repoURL kabs teks = matchPrefixFn repoURL kabs) := by
  constructor
  · show scanRecords repoURL (pre ++ r :: post) = _
    rw [scanRecords_append_skip repoURL pre (r :: post) hpre]
    simp only [scanRecords, hr]
  · intro hk
    unfold selectMatch
    rw [if_pos hk]

/-- C3 witness: concrete instantiation with one skipped record in front. -/
theorem getURLAPIToken_first_usable_witness :
    GetURLAPIToken urlQ (.ok ([rBad] ++ rGood :: [])) =
      .ok ([117, 115, 101, 114], [116, 111, 107, 101, 110], goStr "good-secret") ∧
    ((matchPrefixFn urlQ [goStr "https://github.com/org"]).1 = true →
      selectMatch urlQ [goStr "https://github.com/org"] [] =
        matchPrefixFn urlQ [goStr "https://github.com/org"]) :=
  getURLAPIToken_first_usable urlQ [rBad] [] rGood
    [117, 115, 101, 114] [116, 111, 107, 101, 110] (goStr "good-secret")
    [goStr "https://github.com/org"] []
    (by intro x hx; rw [List.mem_singleton] at hx; subst hx; decide)
    (by decide)

/-- C4: when the first record whose URL pattern matches the query has a
username or token that does not base64-decode, the lookup aborts with a
decode error for that input, no matter what records follow. -/
theorem getURLAPIToken_decode_fatal (repoURL : List Char)
    (pre post : List (List (List Char × JValue))) (r : List (List Char × JValue))
    (n u t : List Char)
    (hpre : ∀ x ∈ pre, recordMatches repoURL x = false)
    (hm : recordMatches repoURL r = true)
    (hn : recordName r = some n) (hu : recordUsername r = some u)
    (ht : recordToken r = some t)
    (hbad : base64Decode u = none ∨ base64Decode t = none) :
    ∃ bad, base64Decode bad = none ∧
      GetURLAPIToken repoURL (.ok (pre ++ r :: post)) = .error (.decodeErr bad) := by
  have hpre' : ∀ x ∈ pre, processRecord repoURL x = .skip := fun x hx =>
    processRecord_skip_of_not_matches repoURL x (hpre x hx)
  cases hdu : base64Decode u with
  | none =>
    have hstep : processRecord repoURL r = .abort u := by
      simp only [processRecord_eq_of_matches repoURL r hm, hn, hu, ht, hdu]
    refine ⟨u, hdu, ?_⟩
    show scanRecords repoURL (pre ++ r :: post) = _
    rw [scanRecords_append_skip repoURL pre (r :: post) hpre']
    simp only [scanRecords, hstep]
  | some du =>
    have hdt : base64Decode t = none := by
      rcases hbad with hb | hb
      · rw [hb] at hdu; exact absurd hdu (by simp)
      · exact hb
    have hstep : processRecord repoURL r = .abort t := by
      simp only [processRecord_eq_of_matches repoURL r hm, hn, hu, ht, hdu, hdt]
    refine ⟨t, hdt, ?_⟩
    show scanRecords repoURL (pre ++ r :: post) = _
    rw [scanRecords_append_skip repoURL pre (r :: post) hpre']
    simp only [scanRecords, hstep]

/-- C4 witness: the corrupt record is first in enumeration order and a good
record follows; the lookup still fails with a decode error. -/
theorem getURLAPIToken_decode_fatal_witness :
    ∃ bad, base64Decode bad = none ∧
      GetURLAPIToken urlQ (.ok ([] ++ rBadB64 :: [rGood])) = .error (.decodeErr bad) :=
  getURLAPIToken_decode_fatal urlQ [] [rGood] rBadB64
    (goStr "corrupt-secret") (goStr "!!!") (goStr "dG9rZW4=")
    (by intro x hx; exact absurd hx (List.not_mem_nil x))
    (by decide) (by decide) (by decide) (by decide)
    (Or.inl (by decide))

/-- C9: a record that passes the URL prefix match but lacks a usable
metadata name, data map, username or password entry is silently skipped:
the lookup on the whole enumeration equals the lookup on the remaining
records. -/
theorem getURLAPIToken_incomplete_skipped (repoURL : List Char)
    (r : List (List Char × JValue)) (rest : List (List (List Char × JValue)))
    (hm : recordMatches repoURL r = true)
    (hbad : recordName r = none ∨ recordUsername r = none ∨ recordToken r = none) :
    GetURLAPIToken repoURL (.ok (r :: rest)) = GetURLAPIToken repoURL (.ok rest) := by
  have hskip : processRecord repoURL r = .skip := by
    rcases hbad with h | h | h
    · simp only [processRecord_eq_of_matches repoURL r hm, h]
    · cases hn : recordName r with
      | none => simp only [processRecord_eq_of_matches repoURL r hm, hn]
      | some name => simp only [processRecord_eq_of_matches repoURL r hm, hn, h]
    · cases hn : recordName r with
      | none => simp only [processRecord_eq_of_matches repoURL r hm, hn]
      | some name =>
        cases hu : recordUsername r with
        | none => simp only [processRecord_eq_of_matches repoURL r hm, hn, hu]
        | some username => simp only [processRecord_eq_of_matches repoURL r hm, hn, hu, h]
  show scanRecords repoURL (r :: rest) = scanRecords repoURL rest
  simp only [scanRecords, hskip]

/-- C9 witness: the matching record without data.username is skipped and
the scan continues with the following record. -/
theorem getURLAPIToken_incomplete_skipped_witness :
    GetURLAPIToken urlQ (.ok (rBad :: [rGood])) = GetURLAPIToken urlQ (.ok [rGood]) :=
  getURLAPIToken_incomplete_skipped urlQ rBad [rGood] (by decide)
    (Or.inr (Or.inl (by decide)))

/- §8  Claim theorems: listener and NATS provider. -/

/-- C1 counterexample: a request whose body parses as JSON but whose
provider.Send fails is answered without any explicitly written status (Go
then sends an implicit 200), not with 202 Accepted. -/
theorem listenerHandler_send_failure_not_202 :
    envSendFails.unmarshalBody.isSome = true ∧
    ¬ listenerHandler envSendFails = some 202 := by
  constructor
  · rfl
  · intro h
    simp [listenerHandler, envSendFails] at h

/-- C1 (amended): the handler writes 202 Accepted exactly when the body
parses as JSON and the whole downstream publish pipeline succeeds —
envelope marshalling, destination lookup, provider lookup and Send; on any
of those failures it returns without writing a status, so a publish
failure does change the response. -/
theorem listenerHandler_202_iff (env : ListenerEnv) :
    listenerHandler env = some 202 ↔
      (env.unmarshalBody.isSome = true ∧ env.marshalOut.isSome = true ∧
       env.destNode.isSome = true ∧ env.providerFound = true ∧
       ∃ u, env.sendResult = .ok u) := by
  rcases env with ⟨ub, mo, dn, pf, sr⟩
  cases ub <;> cases mo <;> cases dn <;> cases pf <;> cases sr <;>
    simp [listenerHandler]

/-- C2: Receive on a source name that was never subscribed yields
ErrBadSubscription (the NotSubscribed failure, produced immediately by the
nil-subscription check, independent of any pending messages), and Receive
on a subscribed source whose next message does not arrive within the
provider's configured timeout yields ErrTimeout. -/
theorem natsReceive_not_subscribed_or_timeout (p : NatsProviderState) (node : EventNode) :
    (lookupSub p.subscription node.name = none →
      natsReceive p node = .error .badSubscription) ∧
    (∀ sub, lookupSub p.subscription node.name = some sub →
      (∀ t d, sub.arrivals.head? = some (t, d) →
        p.messageProviderDefinition.timeout < t) →
      natsReceive p node = .error .timeout) := by
  constructor
  · intro h
    unfold natsReceive
    rw [h]
    rfl
  · intro sub h hlate
    simp only [natsReceive, h, nextMsg]
    cases harr : sub.arrivals with
    | nil => rfl
    | cons td rest =>
      obtain ⟨t, d⟩ := td
      have ht : p.messageProviderDefinition.timeout < t := by
        apply hlate t d
        rw [harr]
        rfl
      have hnle : ¬ (t ≤ p.messageProviderDefinition.timeout) := by omega
      simp [hnle]

/-- C2 witness: a provider with an empty subscription map fails with
ErrBadSubscription, and one whose only pending message arrives at time 10
with timeout 5 fails with ErrTimeout. -/
theorem natsReceive_errors_witness :
    natsReceive provEmpty nodeA = .error .badSubscription ∧
    natsReceive provLate nodeA = .error .timeout := by
  constructor
  · exact (natsReceive_not_subscribed_or_timeout provEmpty nodeA).1 rfl
  · refine (natsReceive_not_subscribed_or_timeout provLate nodeA).2 subLate (by decide) ?_
    intro t d h
    simp only [subLate, List.head?_cons, Option.some.injEq, Prod.mk.injEq] at h
    obtain ⟨h1, h2⟩ := h
    simp only [provLate, mpdA]
    omega

/-- C8: when ChanSubscribe fails, ListenAndServe logs the failure but does
not return: control falls through into the for-range consumption loop over
the never-receiving channel, so the activation never returns. -/
theorem natsListenAndServe_setup_failure :
    (natsListenAndServe (.error (goStr "nats: connection closed")) [] false).loggedSetupFailure
        = true ∧
    (natsListenAndServe (.error (goStr "nats: connection closed")) [] false).enteredConsumeLoop
        = true ∧
    (natsListenAndServe (.error (goStr "nats: connection closed")) [] false).returned
        = false := by
  decide

/- §9  Canonicalizer lemmas. -/

theorem map_id_of_mem {f : Nat → Nat} :
    ∀ (l : List Nat), (∀ c ∈ l, f c = c) → l.map f = l := by
  intro l h
  induction l with
  | nil => rfl
  | cons a t ih =>
    have ha := h a (List.mem_cons_self a t)
    have ht := ih (fun c hc => h c (List.mem_cons_of_mem a hc))
    simp [ha, ht]

theorem domainAlnum_valid (c : Nat) (h : domainAlnum c = true) :
    isValidDomainNameChar c = true := by
  simp only [domainAlnum, decide_eq_true_eq] at h
  simp only [isValidDomainNameChar, decide_eq_true_eq]
  omega

theorem domainAlnum_ne_46 (c : Nat) (h : domainAlnum c = true) : c ≠ 46 := by
  simp only [domainAlnum, decide_eq_true_eq] at h
  omega

theorem valid_toLowerByte_id (c : Nat) (h : isValidDomainNameChar c = true) :
    toLowerByte c = c := by
  simp only [isValidDomainNameChar, decide_eq_true_eq] at h
  unfold toLowerByte
  rw [if_neg (by omega)]

theorem domainPass_ne_nil (c : Nat) (rest : List Nat) : domainPass (c :: rest) ≠ [] := by
  simp only [domainPass]
  split
  · simp
  · split <;> simp

theorem domainPass_head (c : Nat) (rest : List Nat) :
    (domainPass (c :: rest)).getD 0 0 = (if domainAlnum c = true then c else 48) := by
  simp only [domainPass]
  split
  · simp
  · split <;> simp

theorem domainPass_valid (s : List Nat) :
    ∀ x ∈ domainPass s, isValidDomainNameChar x = true := by
  intro x hx
  cases s with
  | nil => simp [domainPass] at hx
  | cons c rest =>
    simp only [domainPass, List.mem_append] at hx
    rcases hx with hx | hx
    · split at hx
      · rename_i hal
        rw [List.mem_singleton] at hx
        subst hx
        exact domainAlnum_valid x hal
      · split at hx
        · rename_i hv
          rw [List.mem_cons, List.mem_singleton] at hx
          rcases hx with hx | hx
          · subst hx; decide
          · subst hx; exact hv
        · rw [List.mem_cons, List.mem_singleton] at hx
          rcases hx with hx | hx
          · subst hx; decide
          · subst hx; decide
    · rw [List.mem_map] at hx
      obtain ⟨ch, _, hval⟩ := hx
      by_cases hv : isValidDomainNameChar ch = true
      · rw [if_pos hv] at hval; subst hval; exact hv
      · rw [if_neg hv] at hval; subst hval; decide

theorem labelAlnum_valid (c : Nat) (h : labelAlnum c = true) :
    isValidLabelChar c = true := by
  simp only [labelAlnum, decide_eq_true_eq] at h
  simp only [isValidLabelChar, decide_eq_true_eq]
  omega

theorem labelPass_ne_nil (c : Nat) (rest : List Nat) : labelPass (c :: rest) ≠ [] := by
  simp only [labelPass]
  split
  · simp
  · split <;> simp

theorem labelPass_head (c : Nat) (rest : List Nat) :
    (labelPass (c :: rest)).getD 0 0 = (if labelAlnum c = true then c else 48) := by
  simp only [labelPass]
  split
  · simp
  · split <;> simp

theorem replaceDotDot_cc (rest : List Nat) :
    replaceDotDot (46 :: 46 :: rest) = 46 :: replaceDotDot rest := rfl

theorem replaceDotDot_ne (a b : Nat) (rest : List Nat) (hab : ¬(a = 46 ∧ b = 46)) :
    replaceDotDot (a :: b :: rest) = a :: replaceDotDot (b :: rest) := by
  simp only [replaceDotDot]
  rw [if_neg hab]

theorem replaceDotDot_head? (l : List Nat) : (replaceDotDot l).head? = l.head? := by
  induction l using replaceDotDot.induct with
  | case1 => rfl
  | case2 a => rfl
  | case3 a b rest hab ih =>
    obtain ⟨ha, hb⟩ := hab
    subst ha; subst hb
    rw [replaceDotDot_cc]
    simp
  | case4 a b rest hab ih =>
    rw [replaceDotDot_ne a b rest hab]
    simp

theorem replaceDotDot_mem (l : List Nat) : ∀ x ∈ replaceDotDot l, x ∈ l := by
  induction l using replaceDotDot.induct with
  | case1 => intro x hx; exact hx
  | case2 a => intro x hx; exact hx
  | case3 a b rest hab ih =>
    obtain ⟨ha, hb⟩ := hab
    subst ha; subst hb
    intro x hx
    rw [replaceDotDot_cc] at hx
    rcases List.mem_cons.mp hx with hx | hx
    · subst hx; simp
    · simp [ih x hx]
  | case4 a b rest hab ih =>
    intro x hx
    rw [replaceDotDot_ne a b rest hab] at hx
    rcases List.mem_cons.mp hx with hx | hx
    · subst hx; simp
    · simp [ih x hx]

theorem replaceDotDot_length_le (l : List Nat) : (replaceDotDot l).length ≤ l.length := by
  induction l using replaceDotDot.induct with
  | case1 => simp [replaceDotDot]
  | case2 a => simp [replaceDotDot]
  | case3 a b rest hab ih =>
    obtain ⟨ha, hb⟩ := hab
    subst ha; subst hb
    rw [replaceDotDot_cc]
    simp only [List.length_cons]
    omega
  | case4 a b rest hab ih =>
    rw [replaceDotDot_ne a b rest hab]
    simp only [List.length_cons] at ih ⊢
    omega

theorem replaceDotDot_length_lt (l : List Nat) (h : hasDotDot l = true) :
    (replaceDotDot l).length < l.length := by
  induction l using replaceDotDot.induct with
  | case1 => simp [hasDotDot] at h
  | case2 a => simp [hasDotDot] at h
  | case3 a b rest hab ih =>
    obtain ⟨ha, hb⟩ := hab
    subst ha; subst hb
    have hle := replaceDotDot_length_le rest
    rw [replaceDotDot_cc]
    simp only [List.length_cons]
    omega
  | case4 a b rest hab ih =>
    have hh : hasDotDot (b :: rest) = true := by
      simp only [hasDotDot, Bool.or_eq_true, decide_eq_true_eq] at h
      rcases h with h | h
      · exact absurd h hab
      · exact h
    have hlt := ih hh
    rw [replaceDotDot_ne a b rest hab]
    simp only [List.length_cons] at hlt ⊢
    omega

theorem indexDotDot_none_iff (l : List Nat) :
    indexDotDot l = none ↔ hasDotDot l = false := by
  induction l with
  | nil => simp [indexDotDot, hasDotDot]
  | cons a t ih =>
    cases t with
    | nil => simp [indexDotDot, hasDotDot]
    | cons b rest =>
      by_cases hab : a = 46 ∧ b = 46
      · simp [indexDotDot, hasDotDot, hab]
      · simp only [indexDotDot, if_neg hab, hasDotDot, Option.map_eq_none']
        rw [ih]
        simp [hab]

theorem indexDotDot_zero_head (l : List Nat) (h : indexDotDot l = some 0) :
    l.head? = some 46 := by
  cases l with
  | nil => simp [indexDotDot] at h
  | cons a t =>
    cases t with
    | nil => simp [indexDotDot] at h
    | cons b rest =>
      by_cases hab : a = 46 ∧ b = 46
      · simp [hab.1]
      · simp only [indexDotDot, if_neg hab] at h
        rw [Option.map_eq_some'] at h
        obtain ⟨k, _, hk⟩ := h
        omega

theorem hasDotDot_of_indexDotDot_pos (l : List Nat)
    (h : (indexDotDot l).getD 0 > 0) : hasDotDot l = true := by
  cases hidx : indexDotDot l with
  | none => rw [hidx] at h; simp at h
  | some k =>
    cases hdd : hasDotDot l with
    | true => rfl
    | false =>
      rw [(indexDotDot_none_iff l).mpr hdd] at hidx
      exact Option.noConfusion hidx

theorem collapseDotsFuel_head? (n : Nat) :
    ∀ (l : List Nat), (collapseDotsFuel n l).head? = l.head? := by
  induction n with
  | zero => intro l; rfl
  | succ m ih =>
    intro l
    simp only [collapseDotsFuel]
    split
    · rw [ih, replaceDotDot_head?]
    · rfl

theorem collapseDotsFuel_mem (n : Nat) :
    ∀ (l : List Nat), ∀ x ∈ collapseDotsFuel n l, x ∈ l := by
  induction n with
  | zero => intro l x hx; exact hx
  | succ m ih =>
    intro l x hx
    simp only [collapseDotsFuel] at hx
    split at hx
    · exact replaceDotDot_mem l x (ih (replaceDotDot l) x hx)
    · exact hx

theorem collapseDotsFuel_id (n : Nat) (l : List Nat) (h : hasDotDot l = false) :
    collapseDotsFuel n l = l := by
  cases n with
  | zero => rfl
  | succ m =>
    simp only [collapseDotsFuel]
    rw [if_neg]
    rw [(indexDotDot_none_iff l).mpr h]
    simp

theorem collapseDotsFuel_noDotDot (n : Nat) :
    ∀ (l : List Nat), l.length ≤ n + 1 → l.head? ≠ some 46 →
    hasDotDot (collapseDotsFuel n l) = false := by
  induction n with
  | zero =>
    intro l hlen _
    cases l with
    | nil => rfl
    | cons a t =>
      cases t with
      | nil => rfl
      | cons b rest => simp at hlen
  | succ m ih =>
    intro l hlen hhead
    simp only [collapseDotsFuel]
    split
    · rename_i hcond
      apply ih
      · have hdd : hasDotDot l = true := hasDotDot_of_indexDotDot_pos l hcond
        have := replaceDotDot_length_lt l hdd
        omega
      · rw [replaceDotDot_head?]; exact hhead
    · rename_i hcond
      cases hidx : indexDotDot l with
      | none => exact (indexDotDot_none_iff l).mp hidx
      | some k =>
        rw [hidx] at hcond
        have hk : k = 0 := by simp at hcond; omega
        subst hk
        exact absurd (indexDotDot_zero_head l hidx) hhead

theorem hasDotDot_append_single (l : List Nat) (c : Nat) (hc : c ≠ 46)
    (h : hasDotDot l = false) : hasDotDot (l ++ [c]) = false := by
  induction l with
  | nil => simp [hasDotDot]
  | cons a t ih =>
    cases t with
    | nil =>
      simp only [List.cons_append, List.nil_append, hasDotDot]
      simp [hc]
    | cons b rest =>
      simp only [List.cons_append, hasDotDot] at h ⊢
      rw [Bool.or_eq_false_iff] at h ⊢
      exact ⟨h.1, ih h.2⟩

theorem hasDotDot_take (l : List Nat) : ∀ (k : Nat), hasDotDot l = false →
    hasDotDot (l.take k) = false := by
  induction l with
  | nil => intro k _; simp [hasDotDot]
  | cons a t ih =>
    intro k h
    cases k with
    | zero => rfl
    | succ k' =>
      cases t with
      | nil =>
        cases k' <;> rfl
      | cons b rest =>
        cases k' with
        | zero => rfl
        | succ k'' =>
          simp only [List.take_succ_cons, hasDotDot] at h ⊢
          rw [Bool.or_eq_false_iff] at h ⊢
          refine ⟨h.1, ?_⟩
          have := ih (k'' + 1) h.2
          simpa [List.take_succ_cons] using this

theorem getD_zero_append (l : List Nat) (c : Nat) (h : l ≠ []) :
    (l ++ [c]).getD 0 0 = l.getD 0 0 := by
  cases l with
  | nil => exact absurd rfl h
  | cons a t => rfl

theorem getD_last_append (l : List Nat) (c : Nat) :
    (l ++ [c]).getD ((l ++ [c]).length - 1) 0 = c := by
  induction l with
  | nil => rfl
  | cons a t ih =>
    rw [List.cons_append]
    have h1 : (a :: (t ++ [c])).length - 1 = t.length + 1 := by
      simp [List.length_append]
    have h2 : (t ++ [c]).length - 1 = t.length := by
      simp [List.length_append]
    rw [h1, List.getD_cons_succ, ← h2]
    exact ih

theorem getD_zero_take (l : List Nat) (k : Nat) (hk : 1 ≤ k) :
    (l.take k).getD 0 0 = l.getD 0 0 := by
  cases l with
  | nil => simp
  | cons a t =>
    cases k with
    | zero => omega
    | succ k' => rfl

theorem lastCharFix_props (maxLength : Nat) (alnum : Nat → Bool) (retStr : List Nat)
    (hml : 4 ≤ maxLength) (h48 : alnum 48 = true)
    (hne : retStr ≠ []) (hlen : retStr.length ≤ maxLength) :
    lastCharFix maxLength alnum retStr ≠ [] ∧
    (lastCharFix maxLength alnum retStr).getD 0 0 = retStr.getD 0 0 ∧
    alnum ((lastCharFix maxLength alnum retStr).getD
      ((lastCharFix maxLength alnum retStr).length - 1) 0) = true ∧
    (lastCharFix maxLength alnum retStr).length ≤ maxLength ∧
    (∀ x ∈ lastCharFix maxLength alnum retStr, x ∈ retStr ∨ x = 48) ∧
    (hasDotDot retStr = false → hasDotDot (lastCharFix maxLength alnum retStr) = false) := by
  have hpos : 0 < retStr.length := List.length_pos.mpr hne
  simp only [lastCharFix]
  by_cases hal : alnum (retStr.getD (retStr.length - 1) 0) = true
  · rw [if_pos hal]
    exact ⟨hne, rfl, hal, hlen, fun x hx => Or.inl hx, fun h => h⟩
  · rw [if_neg hal]
    by_cases hlt : retStr.length < maxLength - 1
    · rw [if_pos hlt]
      refine ⟨by simp, getD_zero_append retStr 48 hne, ?_, ?_, ?_, ?_⟩
      · rw [getD_last_append]
        exact h48
      · simp only [List.length_append, List.length_cons, List.length_nil]
        omega
      · intro x hx
        rcases List.mem_append.mp hx with hx | hx
        · exact Or.inl hx
        · rw [List.mem_singleton] at hx
          exact Or.inr hx
      · intro h
        exact hasDotDot_append_single retStr 48 (by decide) h
    · rw [if_neg hlt]
      have htk1 : 1 ≤ retStr.length - 2 := by omega
      have htk_ne : retStr.take (retStr.length - 2) ≠ [] := by
        apply List.ne_nil_of_length_pos
        rw [List.length_take]
        omega
      refine ⟨by simp, ?_, ?_, ?_, ?_, ?_⟩
      · rw [getD_zero_append _ 48 htk_ne, getD_zero_take retStr _ htk1]
      · rw [getD_last_append]
        exact h48
      · simp only [List.length_append, List.length_take, List.length_cons, List.length_nil]
        omega
      · intro x hx
        rcases List.mem_append.mp hx with hx | hx
        · exact Or.inl (List.take_subset _ _ hx)
        · rw [List.mem_singleton] at hx
          exact Or.inr hx
      · intro h
        exact hasDotDot_append_single _ 48 (by decide) (hasDotDot_take retStr _ h)

theorem ToDomainName_shape (s : List Nat) (hs : s ≠ []) :
    ToDomainName s ≠ [] ∧
    domainAlnum ((ToDomainName s).getD 0 0) = true ∧
    domainAlnum ((ToDomainName s).getD ((ToDomainName s).length - 1) 0) = true ∧
    (∀ c ∈ ToDomainName s, isValidDomainNameChar c = true) ∧
    hasDotDot (ToDomainName s) = false ∧
    (ToDomainName s).length ≤ 253 := by
  obtain ⟨c, rest, hcr⟩ : ∃ c rest, s.map toLowerByte = c :: rest := by
    cases s with
    | nil => exact absurd rfl hs
    | cons a t => exact ⟨toLowerByte a, t.map toLowerByte, rfl⟩
  have hdp_ne : domainPass (s.map toLowerByte) ≠ [] := by
    rw [hcr]; exact domainPass_ne_nil c rest
  have hdp_head : domainAlnum ((domainPass (s.map toLowerByte)).getD 0 0) = true := by
    rw [hcr, domainPass_head]
    split
    · rename_i h; exact h
    · decide
  have hdp_valid := domainPass_valid (s.map toLowerByte)
  have hcd_head? : (collapseDots (domainPass (s.map toLowerByte))).head? =
      (domainPass (s.map toLowerByte)).head? := collapseDotsFuel_head? _ _
  have hcd_ne : collapseDots (domainPass (s.map toLowerByte)) ≠ [] := by
    intro hnil
    rw [hnil] at hcd_head?
    cases hdpm : domainPass (s.map toLowerByte) with
    | nil => exact hdp_ne hdpm
    | cons a t => rw [hdpm] at hcd_head?; simp at hcd_head?
  have hcd_head : (collapseDots (domainPass (s.map toLowerByte))).getD 0 0 =
      (domainPass (s.map toLowerByte)).getD 0 0 := by
    cases hcdm : collapseDots (domainPass (s.map toLowerByte)) with
    | nil => exact absurd hcdm hcd_ne
    | cons a t =>
      cases hdpm : domainPass (s.map toLowerByte) with
      | nil => exact absurd hdpm hdp_ne
      | cons b u =>
        rw [hcdm, hdpm] at hcd_head?
        simp only [List.head?_cons, Option.some.injEq] at hcd_head?
        simp [hcd_head?]
  have hcd_alnum : domainAlnum ((collapseDots (domainPass (s.map toLowerByte))).getD 0 0)
      = true := by
    rw [hcd_head]; exact hdp_head
  have hcd_valid : ∀ x ∈ collapseDots (domainPass (s.map toLowerByte)),
      isValidDomainNameChar x = true := fun x hx =>
    hdp_valid x (collapseDotsFuel_mem _ _ x hx)
  have hcd_nodd : hasDotDot (collapseDots (domainPass (s.map toLowerByte))) = false := by
    unfold collapseDots
    apply collapseDotsFuel_noDotDot
    · omega
    · intro hh
      cases hdpm : domainPass (s.map toLowerByte) with
      | nil => exact hdp_ne hdpm
      | cons a t =>
        rw [hdpm] at hh
        simp only [List.head?_cons, Option.some.injEq] at hh
        rw [hdpm] at hdp_head
        rw [List.getD_cons_zero] at hdp_head
        rw [hh] at hdp_head
        exact absurd hdp_head (by decide)
  have hlen0 : ¬ (collapseDots (domainPass (s.map toLowerByte))).length = 0 := by
    intro h
    exact hcd_ne (List.length_eq_zero.mp h)
  simp only [ToDomainName]
  rw [if_neg hlen0]
  by_cases h253 : (collapseDots (domainPass (s.map toLowerByte))).length > 253
  · rw [if_pos h253]
    have htk_ne : (collapseDots (domainPass (s.map toLowerByte))).take 253 ≠ [] := by
      apply List.ne_nil_of_length_pos
      rw [List.length_take]
      omega
    have htk_len : ((collapseDots (domainPass (s.map toLowerByte))).take 253).length
        ≤ 253 := by
      rw [List.length_take]; omega
    obtain ⟨p1, p2, p3, p4, p5, p6⟩ :=
      lastCharFix_props 253 domainAlnum ((collapseDots (domainPass (s.map toLowerByte))).take 253)
        (by omega) (by decide) htk_ne htk_len
    refine ⟨p1, ?_, p3, ?_, ?_, p4⟩
    · rw [p2, getD_zero_take _ 253 (by omega)]
      exact hcd_alnum
    · intro x hx
      rcases p5 x hx with hx' | hx'
      · exact hcd_valid x (List.take_subset _ _ hx')
      · subst hx'; decide
    · exact p6 (hasDotDot_take _ 253 hcd_nodd)
  · rw [if_neg h253]
    obtain ⟨p1, p2, p3, p4, p5, p6⟩ :=
      lastCharFix_props 253 domainAlnum (collapseDots (domainPass (s.map toLowerByte)))
        (by omega) (by decide) hcd_ne (by omega)
    refine ⟨p1, ?_, p3, ?_, ?_, p4⟩
    · rw [p2]; exact hcd_alnum
    · intro x hx
      rcases p5 x hx with hx' | hx'
      · exact hcd_valid x hx'
      · subst hx'; decide
    · exact p6 hcd_nodd

theorem ToLabelName_shape (s : List Nat) (hs : s ≠ []) :
    ToLabelName s ≠ [] ∧
    labelAlnum ((ToLabelName s).getD 0 0) = true ∧
    labelAlnum ((ToLabelName s).getD ((ToLabelName s).length - 1) 0) = true ∧
    (ToLabelName s).length ≤ 63 := by
  obtain ⟨c, rest, hcr⟩ : ∃ c rest, s = c :: rest := by
    cases s with
    | nil => exact absurd rfl hs
    | cons a t => exact ⟨a, t, rfl⟩
  subst hcr
  have hlp_ne : labelPass (c :: rest) ≠ [] := labelPass_ne_nil c rest
  have hlp_head : labelAlnum ((labelPass (c :: rest)).getD 0 0) = true := by
    rw [labelPass_head]
    split
    · rename_i h; exact h
    · decide
  have hlen0 : ¬ (labelPass (c :: rest)).length = 0 := by
    intro h; exact hlp_ne (List.length_eq_zero.mp h)
  simp only [ToLabelName]
  rw [if_neg hlen0]
  by_cases h63 : (labelPass (c :: rest)).length > 63
  · rw [if_pos h63]
    have htk_ne : (labelPass (c :: rest)).take 63 ≠ [] := by
      apply List.ne_nil_of_length_pos; rw [List.length_take]; omega
    have htk_len : ((labelPass (c :: rest)).take 63).length ≤ 63 := by
      rw [List.length_take]; omega
    obtain ⟨p1, p2, p3, p4, p5, p6⟩ :=
      lastCharFix_props 63 labelAlnum ((labelPass (c :: rest)).take 63) (by omega) (by decide)
        htk_ne htk_len
    refine ⟨p1, ?_, p3, p4⟩
    rw [p2, getD_zero_take _ 63 (by omega)]
    exact hlp_head
  · rw [if_neg h63]
    obtain ⟨p1, p2, p3, p4, p5, p6⟩ :=
      lastCharFix_props 63 labelAlnum (labelPass (c :: rest)) (by omega) (by decide) hlp_ne
        (by omega)
    refine ⟨p1, ?_, p3, p4⟩
    rw [p2]
    exact hlp_head

theorem ToDomainName_fixed (d : List Nat) (hne : d ≠ [])
    (hhead : domainAlnum (d.getD 0 0) = true)
    (hlast : domainAlnum (d.getD (d.length - 1) 0) = true)
    (hvalid : ∀ c ∈ d, isValidDomainNameChar c = true)
    (hdd : hasDotDot d = false) (hlen : d.length ≤ 253) :
    ToDomainName d = d := by
  have hmap : d.map toLowerByte = d :=
    map_id_of_mem d (fun c hc => valid_toLowerByte_id c (hvalid c hc))
  have hdp : domainPass d = d := by
    cases d with
    | nil => rfl
    | cons c rest =>
      rw [List.getD_cons_zero] at hhead
      simp only [domainPass]
      rw [if_pos hhead]
      have hmaprest :
          rest.map (fun ch => if isValidDomainNameChar ch = true then ch else 46) = rest := by
        apply map_id_of_mem
        intro x hx
        rw [if_pos (hvalid x (List.mem_cons_of_mem c hx))]
      rw [hmaprest]
      rfl
  have hcd : collapseDots d = d := collapseDotsFuel_id d.length d hdd
  simp only [ToDomainName]
  rw [hmap, hdp, hcd]
  rw [if_neg (fun h => hne (List.length_eq_zero.mp h))]
  rw [if_neg (by omega)]
  simp only [lastCharFix]
  rw [if_pos hlast]

theorem lastCharFixChecked_eq (maxLength : Nat) (alnum : Nat → Bool) (retStr : List Nat)
    (hne : retStr ≠ []) (hml : 3 ≤ maxLength) :
    lastCharFixChecked maxLength alnum retStr = some (lastCharFix maxLength alnum retStr) := by
  have hpos : 0 < retStr.length := List.length_pos.mpr hne
  simp only [lastCharFixChecked, lastCharFix]
  have hidx : goIndex retStr ((retStr.length : Int) - 1) =
      some (retStr.getD (retStr.length - 1) 0) := by
    unfold goIndex
    rw [if_pos (by constructor <;> omega)]
    have hnat : ((retStr.length : Int) - 1).toNat = retStr.length - 1 := by omega
    rw [hnat]
  simp only [hidx]
  by_cases hal : alnum (retStr.getD (retStr.length - 1) 0) = true
  · rw [if_pos hal, if_pos hal]
  · rw [if_neg hal, if_neg hal]
    have hiff : ((retStr.length : Int) < (maxLength : Int) - 1) ↔
        (retStr.length < maxLength - 1) := by omega
    by_cases hlt : retStr.length < maxLength - 1
    · rw [if_pos (hiff.mpr hlt), if_pos hlt]
    · rw [if_neg (fun hc => hlt (hiff.mp hc)), if_neg hlt]
      have hslice : goSliceTo retStr ((retStr.length : Int) - 2) =
          some (retStr.take (retStr.length - 2)) := by
        unfold goSliceTo
        rw [if_pos (by constructor <;> omega)]
        have hnat : ((retStr.length : Int) - 2).toNat = retStr.length - 2 := by omega
        rw [hnat]
      simp only [hslice]

/- §10  Claim theorems: canonicalizer. -/

/-- C5: ToDomainName is idempotent: applying it to its own output returns
the output unchanged, for every input byte string. -/
theorem ToDomainName_idempotent (s : List Nat) :
    ToDomainName (ToDomainName s) = ToDomainName s := by
  by_cases hs : s = []
  · subst hs; rfl
  · obtain ⟨h1, h2, h3, h4, h5, h6⟩ := ToDomainName_shape s hs
    exact ToDomainName_fixed (ToDomainName s) h1 h2 h3 h4 h5 h6

/-- C6: for every non-empty input, ToDomainName's output is non-empty with
alphanumeric-in-alphabet first and last bytes, is at most 253 bytes long
and contains no two consecutive dots; ToLabelName's output is non-empty
with alphanumeric-in-alphabet first and last bytes and is at most 63 bytes
long. -/
theorem canonicalizer_shape (s : List Nat) (hs : s ≠ []) :
    (ToDomainName s ≠ [] ∧
     domainAlnum ((ToDomainName s).getD 0 0) = true ∧
     domainAlnum ((ToDomainName s).getD ((ToDomainName s).length - 1) 0) = true ∧
     (ToDomainName s).length ≤ 253 ∧
     hasDotDot (ToDomainName s) = false) ∧
    (ToLabelName s ≠ [] ∧
     labelAlnum ((ToLabelName s).getD 0 0) = true ∧
     labelAlnum ((ToLabelName s).getD ((ToLabelName s).length - 1) 0) = true ∧
     (ToLabelName s).length ≤ 63) := by
  obtain ⟨d1, d2, d3, _, d5, d6⟩ := ToDomainName_shape s hs
  obtain ⟨l1, l2, l3, l4⟩ := ToLabelName_shape s hs
  exact ⟨⟨d1, d2, d3, d6, d5⟩, l1, l2, l3, l4⟩

/-- C6 witness: concrete instantiation at the input bytes of "-a!". -/
theorem canonicalizer_shape_witness :
    ([45, 97, 33] : List Nat) ≠ [] ∧
    ((ToDomainName [45, 97, 33] ≠ [] ∧
      domainAlnum ((ToDomainName [45, 97, 33]).getD 0 0) = true ∧
      domainAlnum ((ToDomainName [45, 97, 33]).getD
        ((ToDomainName [45, 97, 33]).length - 1) 0) = true ∧
      (ToDomainName [45, 97, 33]).length ≤ 253 ∧
      hasDotDot (ToDomainName [45, 97, 33]) = false) ∧
     (ToLabelName [45, 97, 33] ≠ [] ∧
      labelAlnum ((ToLabelName [45, 97, 33]).getD 0 0) = true ∧
      labelAlnum ((ToLabelName [45, 97, 33]).getD
        ((ToLabelName [45, 97, 33]).length - 1) 0) = true ∧
      (ToLabelName [45, 97, 33]).length ≤ 63)) :=
  ⟨by decide, canonicalizer_shape [45, 97, 33] (by decide)⟩

/-- C7 counterexample: ToDomainName on the bytes of "-abc" yields the bytes
of "0-abc", not the claimed "0.abc" — the leading dash is a valid domain
character and passes through after the prepended "0". -/
theorem ToDomainName_dash_not_dot :
    ¬ ToDomainName [45, 97, 98, 99] = [48, 46, 97, 98, 99] := by decide

/-- C7 (amended): ToDomainName maps "" to "", "ABC!def" to "abc.def", and
"-abc" to "0-abc" — after the prepended "0" the original first character is
replaced by "." only when it is not itself a valid domain character. -/
theorem ToDomainName_values :
    ToDomainName [] = [] ∧
    ToDomainName [65, 66, 67, 33, 100, 101, 102] = [97, 98, 99, 46, 100, 101, 102] ∧
    ToDomainName [45, 97, 98, 99] = [48, 45, 97, 98, 99] := by decide

/-- C10: with Go's runtime bound checks made explicit, both canonicalizers
evaluate to some result on every input — the final-character overwrite
slice retStr[0:strLen-2] is always in bounds and neither function can
panic. -/
theorem canonicalizer_never_panics (s : List Nat) :
    ToDomainNameChecked s = some (ToDomainName s) ∧
    ToLabelNameChecked s = some (ToLabelName s) := by
  constructor
  · simp only [ToDomainNameChecked, ToDomainName]
    by_cases h0 : (collapseDots (domainPass (s.map toLowerByte))).length = 0
    · rw [if_pos h0, if_pos h0]
    · rw [if_neg h0, if_neg h0]
      by_cases h253 : (collapseDots (domainPass (s.map toLowerByte))).length > 253
      · rw [if_pos h253, if_pos h253]
        apply lastCharFixChecked_eq
        · apply List.ne_nil_of_length_pos
          rw [List.length_take]
          omega
        · omega
      · rw [if_neg h253, if_neg h253]
        apply lastCharFixChecked_eq
        · intro h
          exact h0 (by rw [h]; rfl)
        · omega
  · simp only [ToLabelNameChecked, ToLabelName]
    by_cases h0 : (labelPass s).length = 0
    · rw [if_pos h0, if_pos h0]
    · rw [if_neg h0, if_neg h0]
      by_cases h63 : (labelPass s).length > 63
      · rw [if_pos h63, if_pos h63]
        apply lastCharFixChecked_eq
        · apply List.ne_nil_of_length_pos
          rw [List.length_take]
          omega
        · omega
      · rw [if_neg h63, if_neg h63]
        apply lastCharFixChecked_eq
        · intro h
          exact h0 (by rw [h]; rfl)
        · omega
